import Mathlib

/-!
Shallow embedding of `src/convex/addUser.js` (the Fluent.ly Convex backend).

The file defines three request handlers over a `users` collection:

* `me`   — a query that returns the caller's identity, throwing
  `"Unauthenticated call to mutation"` when no identity is present;
* `list` — a query returning `db.query("users").collect()`, i.e. every
  stored row, with no authentication check;
* `put`  — a mutation that throws
  `"Called storeUser without authentication present"` when unauthenticated,
  otherwise looks the caller up by `tokenIdentifier` via
  `filter(...).unique()` (`unique()` returns `null` on zero matches and
  throws on two or more), patches the row's `name` when it differs from the
  identity's current `name`, and inserts a fresh row when no match exists.

Modelling choices:

* A database state is the list of stored `User` rows in creation order
  (`collect()` returns documents in creation order) together with a counter
  supplying fresh document IDs for `db.insert`.
* Convex executes a mutation transactionally: an uncaught throw aborts the
  transaction, so the handler's outcome on a throw is the unchanged state
  with no writes.  `put` therefore returns the resulting state, the list of
  write operations it performed, and an `Except` carrying either the error
  message or the returned document ID.
* Convex queries cannot write; `me` ignores the database and `list` ignores
  the authentication context, exactly as in the source.
* `identity.name` and `identity.tokenIdentifier` are strings, and the JS
  loose inequality `user.name != identity.name` on two strings coincides
  with string disequality.
-/

/-- A stored row of the `users` collection: the Convex document ID together
with the two fields written by `put`. -/
structure User where
  _id : Nat
  tokenIdentifier : String
  name : String
  deriving DecidableEq, Repr

/-- The state of the `users` collection: rows in creation order, plus the
counter from which `db.insert` draws fresh document IDs. -/
structure DB where
  users : List User
  nextId : Nat
  deriving DecidableEq, Repr

/-- An authenticated identity as reported by `auth.getUserIdentity()`:
the two claims the handlers read. -/
structure Identity where
  tokenIdentifier : String
  name : String
  deriving DecidableEq, Repr

/-- A single write performed by a mutation: `db.patch(id, {name})` or
`db.insert("users", doc)`. -/
inductive WriteOp where
  | patch (id : Nat) (newName : String)
  | insert (u : User)
  deriving DecidableEq, Repr

/-- Outcome of running the `put` mutation: the database state after the
call (unchanged when the handler throws, since the transaction aborts),
the writes it performed, and the returned document ID or the error. -/
structure PutOut where
  db : DB
  writes : List WriteOp
  ret : Except String Nat
  deriving Repr

/-- The rows matching the caller, as computed by
`db.query("users").filter(q => q.eq(q.field('tokenIdentifier'), identity.tokenIdentifier))`. -/
def matchingRows (db : DB) (tok : String) : List User :=
  db.users.filter (fun u => u.tokenIdentifier == tok)

/-- The `me` query handler: throws when unauthenticated, otherwise returns
the identity.  A query cannot write, so the database comes back unchanged. -/
def me (db : DB) (auth : Option Identity) : DB × Except String Identity :=
  match auth with
  | none => (db, Except.error "Unauthenticated call to mutation")
  | some identity => (db, Except.ok identity)

/-- The `list` query handler: `db.query("users").collect()` with no
authentication check — every stored row, unfiltered and unpaginated. -/
def list (db : DB) (_auth : Option Identity) : Except String (List User) :=
  Except.ok db.users

/-- The `put` mutation handler.  Matches of the caller's `tokenIdentifier`
are resolved with `unique()`: zero matches fall through to `db.insert`,
one match is patched when its `name` differs, two or more matches make
`unique()` throw (aborting the transaction). -/
def put (db : DB) (auth : Option Identity) : PutOut :=
  match auth with
  | none => ⟨db, [], Except.error "Called storeUser without authentication present"⟩
  | some identity =>
    match matchingRows db identity.tokenIdentifier with
    | [] =>
      let newUser : User :=
        ⟨db.nextId, identity.tokenIdentifier, identity.name⟩
      ⟨⟨db.users ++ [newUser], db.nextId + 1⟩, [WriteOp.insert newUser],
        Except.ok db.nextId⟩
    | [user] =>
      if user.name ≠ identity.name then
        ⟨⟨db.users.map (fun u =>
            if u._id == user._id then { u with name := identity.name } else u),
          db.nextId⟩,
          [WriteOp.patch user._id identity.name], Except.ok user._id⟩
      else
        ⟨db, [], Except.ok user._id⟩
    | _ => ⟨db, [], Except.error "unique() query returned more than one document"⟩

/-- The spec's invariant: at most one `User` row per distinct
`tokenIdentifier`. -/
def UniqueTok (db : DB) : Prop :=
  ∀ t : String, (matchingRows db t).length ≤ 1

instance : DecidablePred UniqueTok := by
  intro db
  unfold UniqueTok
  exact decidable_of_iff
    (∀ u ∈ db.users, (matchingRows db u.tokenIdentifier).length ≤ 1)
    (by
      constructor
      · intro h t
        by_cases hmem : ∃ u ∈ db.users, u.tokenIdentifier = t
        · obtain ⟨u, hu, rfl⟩ := hmem
          exact h u hu
        · have : matchingRows db t = [] := by
            apply List.filter_eq_nil_iff.mpr
            intro u hu hbeq
            exact hmem ⟨u, hu, by simpa using hbeq⟩
          simp [this]
      · intro h u _
        exact h u.tokenIdentifier)

/-- One request in a sequential execution: each handler call with its
authentication context. -/
inductive Call where
  | me (auth : Option Identity)
  | list (auth : Option Identity)
  | put (auth : Option Identity)

/-- The database state after serving one request (queries never write;
a throwing mutation aborts its transaction). -/
def step (db : DB) (c : Call) : DB :=
  match c with
  | Call.me auth => (me db auth).1
  | Call.list _ => db
  | Call.put auth => (put db auth).db

/-- The database state after serving a sequence of requests in order. -/
def run (db : DB) : List Call → DB
  | [] => db
  | c :: cs => run (step db c) cs

/-- Running `put` successfully `N` times in sequence: the state after
folding the calls, failing if any call throws. -/
def putSeq (db : DB) : List Identity → Except String DB
  | [] => Except.ok db
  | i :: is =>
    let o := put db (some i)
    match o.ret with
    | Except.error e => Except.error e
    | Except.ok _ => putSeq o.db is

/-!  Equation lemmas for `put`, one per branch of the handler.  -/

/-- Unauthenticated: `put` throws and the transaction aborts. -/
lemma put_eq_of_none (db : DB) :
    put db none = ⟨db, [], Except.error "Called storeUser without authentication present"⟩ :=
  rfl

/-- No stored row matches: `put` inserts a fresh row at the end. -/
lemma put_eq_of_no_match (db : DB) (i : Identity)
    (h : matchingRows db i.tokenIdentifier = []) :
    put db (some i) =
      ⟨⟨db.users ++ [⟨db.nextId, i.tokenIdentifier, i.name⟩], db.nextId + 1⟩,
        [WriteOp.insert ⟨db.nextId, i.tokenIdentifier, i.name⟩],
        Except.ok db.nextId⟩ := by
  unfold put
  dsimp only
  rw [h]

/-- A unique match whose name differs: `put` patches that row's `name`. -/
lemma put_eq_of_match_rename (db : DB) (i : Identity) (u : User)
    (h : matchingRows db i.tokenIdentifier = [u]) (hn : u.name ≠ i.name) :
    put db (some i) =
      ⟨⟨db.users.map (fun v =>
          if v._id == u._id then { v with name := i.name } else v), db.nextId⟩,
        [WriteOp.patch u._id i.name], Except.ok u._id⟩ := by
  unfold put
  dsimp only
  rw [h]
  simp [hn]

/-- A unique match with the same name: `put` writes nothing. -/
lemma put_eq_of_match_same (db : DB) (i : Identity) (u : User)
    (h : matchingRows db i.tokenIdentifier = [u]) (hn : u.name = i.name) :
    put db (some i) = ⟨db, [], Except.ok u._id⟩ := by
  unfold put
  dsimp only
  rw [h]
  simp [hn]

/-- Two or more matches: `unique()` throws and the transaction aborts. -/
lemma put_eq_of_multi_match (db : DB) (i : Identity) (u v : User) (rest : List User)
    (h : matchingRows db i.tokenIdentifier = u :: v :: rest) :
    put db (some i) = ⟨db, [], Except.error "unique() query returned more than one document"⟩ := by
  unfold put
  dsimp only
  rw [h]

/-- The unique match belongs to the collection and carries the token. -/
lemma matchingRows_single_mem {db : DB} {t : String} {u : User}
    (h : matchingRows db t = [u]) : u ∈ db.users ∧ u.tokenIdentifier = t := by
  have hu : u ∈ matchingRows db t := by rw [h]; exact List.mem_singleton_self u
  unfold matchingRows at hu
  rcases List.mem_filter.mp hu with ⟨h1, h2⟩
  exact ⟨h1, by simpa using h2⟩

/-- Renaming rows commutes with matching on `tokenIdentifier`. -/
lemma matchingRows_map (users : List User) (n m : Nat) (f : User → User) (t : String)
    (hf : ∀ u, (f u).tokenIdentifier = u.tokenIdentifier) :
    matchingRows ⟨users.map f, n⟩ t = (matchingRows ⟨users, m⟩ t).map f := by
  unfold matchingRows
  simp only
  rw [List.filter_map]
  congr 1
  apply List.filter_congr
  intro u _
  simp [Function.comp, hf]

/-- Matching distributes over appended rows. -/
lemma matchingRows_append (l₁ l₂ : List User) (n m k : Nat) (t : String) :
    matchingRows ⟨l₁ ++ l₂, n⟩ t
      = matchingRows ⟨l₁, m⟩ t ++ matchingRows ⟨l₂, k⟩ t := by
  unfold matchingRows
  simp [List.filter_append]

/-- C2: For every database state and every caller with no authenticated
identity, calling `put` raises an error and performs no write: the database
state after the failed call equals the state before it. -/
theorem put_unauthenticated_rolls_back (db : DB) :
    put db none
      = ⟨db, [], Except.error "Called storeUser without authentication present"⟩ :=
  rfl

/-- C6: For every database state and every caller with no authenticated
identity, calling `me` raises an authentication error and leaves the
database unchanged. -/
theorem me_unauthenticated_error (db : DB) :
    me db none = (db, Except.error "Unauthenticated call to mutation") :=
  rfl

/-- C7: For every database state, calling `list` with no authenticated
identity succeeds without raising any error and returns all stored User
rows, unfiltered and unpaginated. -/
theorem list_unauthenticated_returns_all (db : DB) :
    list db none = Except.ok db.users :=
  rfl

/-- C9: The result of `list` depends only on the contents of the users
collection, never on the caller's authentication context. -/
theorem list_ignores_identity (db : DB) (a₁ a₂ : Option Identity) :
    list db a₁ = list db a₂ :=
  rfl

/-- C10: If more than one stored row matches the authenticated caller's
`tokenIdentifier`, `put` raises an error (the `unique()` lookup throws) and
performs no write, leaving the database unchanged. -/
theorem put_duplicate_rows_error (db : DB) (i : Identity)
    (h : 2 ≤ (matchingRows db i.tokenIdentifier).length) :
    put db (some i)
      = ⟨db, [], Except.error "unique() query returned more than one document"⟩ := by
  rcases hm : matchingRows db i.tokenIdentifier with _ | ⟨u, _ | ⟨v, rest⟩⟩
  · rw [hm] at h; simp at h
  · rw [hm] at h; simp at h
  · exact put_eq_of_multi_match db i u v rest hm

/-- Witness for C10 at a concrete two-row state. -/
theorem put_duplicate_rows_error_witness :
    2 ≤ (matchingRows ⟨[⟨0, "abc", "Alice"⟩, ⟨1, "abc", "Bob"⟩], 2⟩ "abc").length ∧
      (put ⟨[⟨0, "abc", "Alice"⟩, ⟨1, "abc", "Bob"⟩], 2⟩ (some ⟨"abc", "Carol"⟩)).ret
        = Except.error "unique() query returned more than one document" :=
  ⟨by decide, by
    rw [(put_duplicate_rows_error ⟨[⟨0, "abc", "Alice"⟩, ⟨1, "abc", "Bob"⟩], 2⟩
      ⟨"abc", "Carol"⟩ (by decide))]⟩

/-- Matching only reads the rows, never the counter. -/
lemma matchingRows_users (db : DB) (n : Nat) (t : String) :
    matchingRows ⟨db.users, n⟩ t = matchingRows db t :=
  rfl

/-- Matching inside a one-row collection. -/
lemma matchingRows_singleton (u : User) (n : Nat) (t : String) :
    matchingRows ⟨[u], n⟩ t = if u.tokenIdentifier = t then [u] else [] := by
  unfold matchingRows
  simp [List.filter_singleton, beq_iff_eq]

/-- The row patched by `put` keeps its `tokenIdentifier`. -/
lemma patch_keeps_token (u₀ : User) (newName : String) (v : User) :
    ((if v._id == u₀._id then { v with name := newName } else v) : User).tokenIdentifier
      = v.tokenIdentifier := by
  split <;> rfl

/-- The mutation preserves the at-most-one-row-per-token invariant. -/
lemma put_preserves_uniqueTok (db : DB) (auth : Option Identity)
    (h : UniqueTok db) : UniqueTok (put db auth).db := by
  match auth with
  | none => rw [put_eq_of_none]; exact h
  | some i =>
    rcases hm : matchingRows db i.tokenIdentifier with _ | ⟨u, _ | ⟨v, rest⟩⟩
    · rw [put_eq_of_no_match db i hm]
      intro t
      rw [show (⟨db.users ++ [⟨db.nextId, i.tokenIdentifier, i.name⟩], db.nextId + 1⟩ : DB)
            = ⟨db.users ++ [⟨db.nextId, i.tokenIdentifier, i.name⟩], db.nextId + 1⟩ from rfl,
          matchingRows_append db.users [⟨db.nextId, i.tokenIdentifier, i.name⟩]
            (db.nextId + 1) 0 0 t, matchingRows_users, matchingRows_singleton]
      by_cases ht : i.tokenIdentifier = t
      · subst ht
        rw [hm]
        simp
      · rw [if_neg ht]
        simpa using h t
    · by_cases hn : u.name = i.name
      · rw [put_eq_of_match_same db i u hm hn]; exact h
      · rw [put_eq_of_match_rename db i u hm hn]
        intro t
        rw [matchingRows_map db.users db.nextId 0 _ t (patch_keeps_token u i.name)]
        rw [List.length_map, matchingRows_users]
        exact h t
    · rw [put_eq_of_multi_match db i u v rest hm]; exact h

/-- Each single request preserves the invariant. -/
lemma step_preserves_uniqueTok (db : DB) (c : Call)
    (h : UniqueTok db) : UniqueTok (step db c) := by
  cases c with
  | me auth => cases auth <;> exact h
  | list _ => exact h
  | put auth => exact put_preserves_uniqueTok db auth h

/-- C4: The invariant "at most one User row per distinct tokenIdentifier"
is preserved by every sequential execution of `me`, `list` and `put`
requests, each mutation running atomically. -/
theorem run_preserves_unique_token (calls : List Call) (db : DB)
    (h : UniqueTok db) : UniqueTok (run db calls) := by
  induction calls generalizing db with
  | nil => exact h
  | cons c cs ih => exact ih (step db c) (step_preserves_uniqueTok db c h)

/-- Witness for C4: a concrete state and request sequence. -/
theorem run_preserves_unique_token_witness :
    UniqueTok ⟨[⟨0, "abc", "Alice"⟩], 1⟩ ∧
      UniqueTok (run ⟨[⟨0, "abc", "Alice"⟩], 1⟩
        [Call.put (some ⟨"xyz", "Bob"⟩), Call.me none, Call.list none,
         Call.put (some ⟨"abc", "Alicia"⟩)]) :=
  ⟨by decide,
    run_preserves_unique_token
      [Call.put (some ⟨"xyz", "Bob"⟩), Call.me none, Call.list none,
       Call.put (some ⟨"abc", "Alicia"⟩)]
      ⟨[⟨0, "abc", "Alice"⟩], 1⟩ (by decide)⟩

/-- C1: Starting from a state where the caller's `tokenIdentifier` matches
at most one stored row, calling `put` twice with the same identity
(unchanged name) leaves exactly one stored row for that token, and the
second call changes nothing and performs no write. -/
theorem put_twice_same_identity (db : DB) (i : Identity)
    (h : (matchingRows db i.tokenIdentifier).length ≤ 1) :
    (matchingRows (put (put db (some i)).db (some i)).db i.tokenIdentifier).length = 1 ∧
      (put (put db (some i)).db (some i)).db = (put db (some i)).db ∧
      (put (put db (some i)).db (some i)).writes = [] := by
  rcases hm : matchingRows db i.tokenIdentifier with _ | ⟨u, _ | ⟨v, rest⟩⟩
  · rw [put_eq_of_no_match db i hm]
    have h1 : matchingRows
        ⟨db.users ++ [⟨db.nextId, i.tokenIdentifier, i.name⟩], db.nextId + 1⟩
        i.tokenIdentifier = [⟨db.nextId, i.tokenIdentifier, i.name⟩] := by
      rw [matchingRows_append db.users [⟨db.nextId, i.tokenIdentifier, i.name⟩]
            (db.nextId + 1) 0 0, matchingRows_users, hm, matchingRows_singleton]
      simp
    rw [put_eq_of_match_same _ i _ h1 rfl, h1]
    exact ⟨rfl, rfl, rfl⟩
  · by_cases hn : u.name = i.name
    · rw [put_eq_of_match_same db i u hm hn, put_eq_of_match_same db i u hm hn, hm]
      exact ⟨rfl, rfl, rfl⟩
    · rw [put_eq_of_match_rename db i u hm hn]
      have h1 : matchingRows ⟨db.users.map (fun v =>
          if v._id == u._id then { v with name := i.name } else v), db.nextId⟩
          i.tokenIdentifier = [{ u with name := i.name }] := by
        rw [matchingRows_map db.users db.nextId db.nextId _ _ (patch_keeps_token u i.name),
            matchingRows_users, hm]
        simp
      rw [put_eq_of_match_same _ i _ h1 rfl, h1]
      exact ⟨rfl, rfl, rfl⟩
  · rw [hm] at h
    simp at h

/-- Witness for C1 at the empty database and a concrete identity. -/
theorem put_twice_same_identity_witness :
    (matchingRows ⟨[], 0⟩ "abc").length ≤ 1 ∧
      (matchingRows (put (put ⟨[], 0⟩ (some ⟨"abc", "Alice"⟩)).db
          (some ⟨"abc", "Alice"⟩)).db "abc").length = 1 :=
  ⟨by decide, (put_twice_same_identity ⟨[], 0⟩ ⟨"abc", "Alice"⟩ (by decide)).1⟩

/-- C3: With a unique stored row for the caller's token and a changed name,
`put` returns that row's ID, keeps the row count, rewrites the row's `name`
to the new value without creating a second row; and whenever that row came
from a `put` that created it, the creating call returned the same ID. -/
theorem put_changed_name_updates_row (db : DB) (i : Identity) (u : User)
    (h : matchingRows db i.tokenIdentifier = [u])
    (hn : u.name ≠ i.name) :
    (put db (some i)).ret = Except.ok u._id ∧
      (put db (some i)).db.users.length = db.users.length ∧
      matchingRows (put db (some i)).db i.tokenIdentifier
        = [⟨u._id, u.tokenIdentifier, i.name⟩] ∧
      (∀ (db₀ : DB) (j : Identity), j.tokenIdentifier = i.tokenIdentifier →
        matchingRows db₀ j.tokenIdentifier = [] →
        (put db₀ (some j)).db = db →
        (put db₀ (some j)).ret = Except.ok u._id) := by
  rw [put_eq_of_match_rename db i u h hn]
  refine ⟨rfl, by simp, ?_, ?_⟩
  · rw [matchingRows_map db.users db.nextId db.nextId _ _ (patch_keeps_token u i.name),
        matchingRows_users, h]
    simp
  · intro db₀ j hj h0 hdb
    rw [put_eq_of_no_match db₀ j h0] at hdb ⊢
    dsimp only at hdb ⊢
    have hc : matchingRows ⟨db₀.users ++ [⟨db₀.nextId, j.tokenIdentifier, j.name⟩],
        db₀.nextId + 1⟩ i.tokenIdentifier
        = [⟨db₀.nextId, j.tokenIdentifier, j.name⟩] := by
      rw [matchingRows_append db₀.users [⟨db₀.nextId, j.tokenIdentifier, j.name⟩]
            (db₀.nextId + 1) 0 0, matchingRows_users, ← hj, h0, matchingRows_singleton]
      simp [hj]
    rw [← hdb, hc] at h
    have hu : (⟨db₀.nextId, j.tokenIdentifier, j.name⟩ : User) = u := by
      injection h with h1 _
    rw [← hu]

/-- Witness for C3: the spec's Alice/Alicia scenario after the creating call. -/
theorem put_changed_name_updates_row_witness :
    matchingRows ⟨[⟨0, "abc", "Alice"⟩], 1⟩ "abc" = [⟨0, "abc", "Alice"⟩] ∧
      ("Alice" : String) ≠ "Alicia" ∧
      (put ⟨[⟨0, "abc", "Alice"⟩], 1⟩ (some ⟨"abc", "Alicia"⟩)).ret = Except.ok 0 :=
  ⟨by decide, by decide,
    (put_changed_name_updates_row ⟨[⟨0, "abc", "Alice"⟩], 1⟩ ⟨"abc", "Alicia"⟩
      ⟨0, "abc", "Alice"⟩ (by decide) (by decide)).1⟩

/-- Folding `put` over identities whose tokens are fresh and pairwise
distinct succeeds and adds exactly one row per call. -/
lemma putSeq_fresh (ids : List Identity) : ∀ db : DB,
    (∀ i ∈ ids, matchingRows db i.tokenIdentifier = []) →
    (ids.map Identity.tokenIdentifier).Nodup →
    ∃ db', putSeq db ids = Except.ok db' ∧
      db'.users.length = db.users.length + ids.length := by
  induction ids with
  | nil =>
    intro db _ _
    exact ⟨db, rfl, by simp⟩
  | cons i is ih =>
    intro db hfresh hnodup
    have h0 : matchingRows db i.tokenIdentifier = [] := hfresh i (by simp)
    have hstep : putSeq db (i :: is)
        = putSeq ⟨db.users ++ [⟨db.nextId, i.tokenIdentifier, i.name⟩], db.nextId + 1⟩ is := by
      show (match (put db (some i)).ret with
        | Except.error e => Except.error e
        | Except.ok _ => putSeq (put db (some i)).db is) = _
      rw [put_eq_of_no_match db i h0]
    rw [hstep]
    have hfresh' : ∀ j ∈ is, matchingRows
        ⟨db.users ++ [⟨db.nextId, i.tokenIdentifier, i.name⟩], db.nextId + 1⟩
        j.tokenIdentifier = [] := by
      intro j hj
      rw [matchingRows_append db.users _ (db.nextId + 1) 0 0, matchingRows_users,
          hfresh j (by simp [hj]), matchingRows_singleton]
      have hne : i.tokenIdentifier ≠ j.tokenIdentifier := by
        intro hEq
        rw [List.map_cons] at hnodup
        exact (List.nodup_cons.mp hnodup).1
          (by rw [hEq]; exact List.mem_map_of_mem Identity.tokenIdentifier hj)
      rw [if_neg hne]
      rfl
    obtain ⟨db', hok, hlen⟩ := ih _ hfresh' (by
      rw [List.map_cons] at hnodup
      exact (List.nodup_cons.mp hnodup).2)
    refine ⟨db', hok, ?_⟩
    simp only [List.length_append, List.length_singleton, List.length_cons,
      List.length_nil] at hlen ⊢
    omega

/-- C5: After `N` successful `put` calls with `N` pairwise-distinct
`tokenIdentifier`s starting from an empty users collection, `list` returns
exactly `N` rows. -/
theorem list_after_distinct_puts (ids : List Identity)
    (h : (ids.map Identity.tokenIdentifier).Nodup) :
    (putSeq ⟨[], 0⟩ ids).isOk = true ∧
      ∀ db', putSeq ⟨[], 0⟩ ids = Except.ok db' →
        list db' none = Except.ok db'.users ∧ db'.users.length = ids.length := by
  obtain ⟨db', hok, hlen⟩ := putSeq_fresh ids ⟨[], 0⟩ (fun i _ => rfl) h
  constructor
  · rw [hok]
    rfl
  · intro db'' h2
    rw [hok] at h2
    injection h2 with h3
    subst h3
    exact ⟨rfl, by simpa using hlen⟩

/-- Witness for C5 with two distinct tokens. -/
theorem list_after_distinct_puts_witness :
    ((([⟨"a", "x"⟩, ⟨"b", "y"⟩] : List Identity).map Identity.tokenIdentifier).Nodup) ∧
      (putSeq ⟨[], 0⟩ [⟨"a", "x"⟩, ⟨"b", "y"⟩]).isOk = true :=
  ⟨by decide, (list_after_distinct_puts [⟨"a", "x"⟩, ⟨"b", "y"⟩] (by decide)).1⟩

/-- The rows whose `tokenIdentifier` differs from the caller's: the part of
the collection `put` must leave untouched. -/
def otherRows (db : DB) (tok : String) : List User :=
  db.users.filter (fun u => u.tokenIdentifier != tok)

/-- C8: On a state with unique document IDs where the caller's
`tokenIdentifier` matches at most one stored row, an authenticated `put`
performs at most one write (a single patch or a single insert, never both,
possibly neither) and leaves every row with a different `tokenIdentifier`
exactly as it was. -/
theorem put_at_most_one_write (db : DB) (i : Identity)
    (hids : (db.users.map User._id).Nodup)
    (h : (matchingRows db i.tokenIdentifier).length ≤ 1) :
    (put db (some i)).writes.length ≤ 1 ∧
      otherRows (put db (some i)).db i.tokenIdentifier
        = otherRows db i.tokenIdentifier := by
  rcases hm : matchingRows db i.tokenIdentifier with _ | ⟨u, _ | ⟨v, rest⟩⟩
  · rw [put_eq_of_no_match db i hm]
    refine ⟨by simp, ?_⟩
    unfold otherRows
    dsimp only
    rw [List.filter_append]
    simp
  · by_cases hn : u.name = i.name
    · rw [put_eq_of_match_same db i u hm hn]
      exact ⟨by simp, rfl⟩
    · rw [put_eq_of_match_rename db i u hm hn]
      refine ⟨by simp, ?_⟩
      unfold otherRows
      dsimp only
      obtain ⟨humem, hutok⟩ := matchingRows_single_mem hm
      have hcongr : List.filter ((fun u0 => u0.tokenIdentifier != i.tokenIdentifier) ∘
            (fun v => if v._id == u._id then { v with name := i.name } else v)) db.users
          = List.filter (fun u0 => u0.tokenIdentifier != i.tokenIdentifier) db.users :=
        List.filter_congr (fun w _ => by
          simp only [Function.comp_apply, patch_keeps_token])
      rw [List.filter_map, hcongr]
      have hfix : ∀ w ∈ db.users.filter (fun u0 => u0.tokenIdentifier != i.tokenIdentifier),
          (if w._id == u._id then { w with name := i.name } else w) = w := by
        intro w hw
        rcases List.mem_filter.mp hw with ⟨hwmem, hwp⟩
        have hwne : w.tokenIdentifier ≠ i.tokenIdentifier := by simpa using hwp
        have hidne : ¬ (w._id == u._id) = true := by
          intro hbeq
          have hwid : w._id = u._id := by simpa using hbeq
          have hwu : w = u := List.inj_on_of_nodup_map hids hwmem humem hwid
          exact hwne (hwu ▸ hutok)
        rw [if_neg hidne]
      calc List.map _ (db.users.filter (fun u0 => u0.tokenIdentifier != i.tokenIdentifier))
          = List.map id (db.users.filter (fun u0 => u0.tokenIdentifier != i.tokenIdentifier)) :=
            List.map_congr_left hfix
        _ = db.users.filter (fun u0 => u0.tokenIdentifier != i.tokenIdentifier) :=
            List.map_id _
  · rw [hm] at h
    simp at h

/-- Witness for C8: an insert into a one-row state with a fresh token. -/
theorem put_at_most_one_write_witness :
    ((([⟨0, "abc", "Alice"⟩] : List User).map User._id).Nodup) ∧
      (matchingRows ⟨[⟨0, "abc", "Alice"⟩], 1⟩ "xyz").length ≤ 1 ∧
      (put ⟨[⟨0, "abc", "Alice"⟩], 1⟩ (some ⟨"xyz", "Bob"⟩)).writes.length ≤ 1 :=
  ⟨by decide, by decide,
    (put_at_most_one_write ⟨[⟨0, "abc", "Alice"⟩], 1⟩ ⟨"xyz", "Bob"⟩
      (by decide) (by decide)).1⟩
